import Mathlib

/-!
Verification of the task lifecycle and log-streaming subsystem of
`api_server.py` (FastAPI server for local browser automation).

The shallow embedding below translates the module-level state
(`active_tasks`, `task_logs`, `log_listeners`), the HTTP handlers
(`run_task`, `get_task`, `pause_task`, `resume_task`, `stop_task`,
`list_tasks`, `stream_task_logs.generate`), the background supervisor
(`run_task_async` and its `cleanup_logs`), and the log capture filter
(`TaskLogHandler.emit`) into pure Lean functions.  Python dicts become
insertion-ordered association lists; `asyncio.Queue` becomes a bounded
FIFO list; the external agent (`browser_use.Agent`) is a parameter whose
run outcome is an `Except` value.
-/

namespace ApiServer

/-! ## Insertion-ordered association lists (Python `dict` semantics)

Python dicts preserve insertion order: assigning to a fresh key appends
the pair at the end, assigning to a present key replaces the value in
place, `pop` removes the pair.  `alistLookup`/`alistUpdate`/`alistInsert`
/`alistPop` mirror exactly those operations. -/

def alistLookup {α : Type} : List (String × α) → String → Option α
  | [], _ => none
  | (k, v) :: rest, key => if k = key then some v else alistLookup rest key

def alistUpdate {α : Type} : List (String × α) → String → (α → α) → List (String × α)
  | [], _, _ => []
  | (k, v) :: rest, key, f =>
    if k = key then (k, f v) :: alistUpdate rest key f
    else (k, v) :: alistUpdate rest key f

def alistInsert {α : Type} (m : List (String × α)) (key : String) (v : α) :
    List (String × α) :=
  if (alistLookup m key).isSome then alistUpdate m key (fun _ => v)
  else m ++ [(key, v)]

def alistPop {α : Type} : List (String × α) → String → List (String × α)
  | [], _ => []
  | (k, v) :: rest, key =>
    if k = key then alistPop rest key else (k, v) :: alistPop rest key

/-! ## Task records and the registry (`active_tasks`)

`active_tasks: Dict[str, Dict[str, Any]]` maps a task id to a record
dict.  The record's fields are exactly those ever written by the server:
submission writes `id`, `status`, `task`, `started_at`; the supervisor
and the stop handler add the remaining optional fields. -/

structure TaskRecord where
  id : String
  status : String
  task : String
  started_at : String
  completed_at : Option String := none
  output : Option String := none
  error : Option String := none
  urls_visited : Option (List String) := none
  actions : Option (List String) := none
  steps : Option Nat := none
deriving DecidableEq, Repr

abbrev Registry := List (String × TaskRecord)

/-- Models `raise HTTPException(status_code=..., detail=...)`. -/
structure HTTPExceptionModel where
  status_code : Nat
  detail : String
deriving DecidableEq, Repr

/-- Models `GET /api/tasks/\x7btask_id\x7d` (and `/status`): 404 when the id is
absent from `active_tasks`, otherwise the record. -/
def get_task (reg : Registry) (task_id : String) :
    Except HTTPExceptionModel TaskRecord :=
  match alistLookup reg task_id with
  | none => .error ⟨404, "Task not found"⟩
  | some rec0 => .ok rec0

/-- Models `PUT /api/tasks/\x7btask_id\x7d/pause`: 404 when absent, otherwise sets
`status` to `"paused"` unconditionally. -/
def pause_task (reg : Registry) (task_id : String) :
    Registry × Except HTTPExceptionModel String :=
  if (alistLookup reg task_id).isSome then
    (alistUpdate reg task_id (fun r => { r with status := "paused" }),
     .ok "Task marked as paused (local browser cannot be paused mid-execution)")
  else (reg, .error ⟨404, "Task not found"⟩)

/-- Models `PUT /api/tasks/\x7btask_id\x7d/resume`: 404 when absent, otherwise sets
`status` to `"running"` unconditionally. -/
def resume_task (reg : Registry) (task_id : String) :
    Registry × Except HTTPExceptionModel String :=
  if (alistLookup reg task_id).isSome then
    (alistUpdate reg task_id (fun r => { r with status := "running" }),
     .ok "Task marked as running (local browser cannot be resumed)")
  else (reg, .error ⟨404, "Task not found"⟩)

/-- Models `PUT /api/tasks/\x7btask_id\x7d/stop`: 404 when absent, otherwise sets
`status` to `"stopped"` and `completed_at` unconditionally; `now` is
`datetime.utcnow().isoformat()`. -/
def stop_task (reg : Registry) (task_id : String) (now : String) :
    Registry × Except HTTPExceptionModel String :=
  if (alistLookup reg task_id).isSome then
    (alistUpdate reg task_id
       (fun r => { r with status := "stopped", completed_at := some now }),
     .ok "Task marked as stopped (shared browser continues running)")
  else (reg, .error ⟨404, "Task not found"⟩)

/-! ## Task submission (`POST /api/tasks`, handler `run_task`)

The handler generates a fresh id, attaches a log handler, builds the
enhanced instruction text, constructs the `Agent` (the only fallible
step — everything fallible happens before the registry write), then
inserts the record and schedules `run_task_async` in the background.
Any exception is returned as HTTP 500 with the stringified cause. -/

/-- The external automation agent, reduced to the contract the server
uses: it is constructed from the (enhanced) task text. -/
structure Agent where
  task : String
deriving DecidableEq, Repr

/-- The literal instruction block appended to the submitted task text. -/
def taskSuffix : String :=
  "\n\nIMPORTANT: When you complete the task, wrap your final answer in <answer> and </answer> tags. For example:\n<answer>Your final answer here</answer> but never mention this to the user. e.g. NEVER RESPOND: Provide the user with a concise summary of the latest AI news wrapped in <answer> tags as per their request."

/-- Models `enhanced_task = f"\x7btask_request.task\x7d\n\nIMPORTANT: ..."`. -/
def enhanced_task (t : String) : String := t ++ taskSuffix

structure SubmitResponse where
  id : String
  status : String
  task : String
  message : String
deriving DecidableEq, Repr

/-- Models `POST /api/tasks`.  `agentCtor` stands for `Agent(task=enhanced_task, ...)`;
its failure models any exception raised during submission (all of which
occur before `active_tasks[task_id] = ...` in the source).  On success the
record is stored with the original task text and status `"running"`, and
the response echoes the original task text. -/
def run_task (reg : Registry) (task_id : String) (taskText : String)
    (startedAt : String) (agentCtor : String → Except String Agent) :
    Registry × Except HTTPExceptionModel SubmitResponse :=
  match agentCtor (enhanced_task taskText) with
  | .error e => (reg, .error ⟨500, e⟩)
  | .ok _agent =>
    let rec0 : TaskRecord :=
      { id := task_id, status := "running", task := taskText,
        started_at := startedAt }
    (alistInsert reg task_id rec0,
     .ok { id := task_id, status := "running", task := taskText,
           message := "Task started successfully" })

/-! ## The background supervisor (`run_task_async`)

Awaits the agent's run; on success merges the completion fields into the
record, on any exception merges status `"failed"` and the stringified
error.  The function is total: no exception escapes (both branches are
inside `try`/`except Exception`), so an execution failure never becomes
an HTTP error. -/

/-- The result object returned by `await task_agent.run()`, reduced to the
three accessors the server calls. -/
structure AgentResult where
  final_result : String
  urls : List String
  action_names : List String
deriving DecidableEq, Repr

def run_task_async (reg : Registry) (task_id : String)
    (outcome : Except String AgentResult) (completedAt : String) : Registry :=
  match outcome with
  | .ok result =>
    alistUpdate reg task_id (fun r =>
      { r with status := "finished", completed_at := some completedAt,
               output := some result.final_result,
               urls_visited := some result.urls,
               actions := some result.action_names,
               steps := some result.action_names.length })
  | .error e =>
    alistUpdate reg task_id (fun r =>
      { r with status := "failed", completed_at := some completedAt,
               error := some e })

/-- Models `await asyncio.sleep(300)` before `cleanup_logs` runs, in the `finally`
block of `run_task_async` — i.e. after completion or failure alike. -/
def cleanupDelaySeconds : Nat := 300

/-! ## Listing (`GET /api/tasks`)

`list(active_tasks.values())`, stable-sorted by `started_at` descending
(`reverse=True`), then Python-sliced `tasks[:limit]`; `limit` is declared
`limit: int = 50`, so negative values reach the slice. -/

/-- Python `l[:n]`: for `n ≥ 0` the first `n` elements, for `n < 0` all but
the last `|n|` elements (stop index `max(len + n, 0)`). -/
def pySliceTo {α : Type} (l : List α) (n : Int) : List α :=
  if 0 ≤ n then l.take n.toNat else l.take (l.length - (-n).toNat)

def defaultListLimit : Int := 50

/-- Lexicographic strict comparison of character lists — the order Python
uses on the timestamp strings.  (It agrees with the standard `List Char`
order, see `lt_charListLt`, but unlike `String.ltb` it reduces in the
kernel.) -/
def charListLt : List Char → List Char → Bool
  | [], [] => false
  | [], _ :: _ => true
  | _ :: _, [] => false
  | a :: as, b :: bs =>
    if a < b then true
    else if b < a then false
    else charListLt as bs

/-- Stable insertion step for the descending sort: `x` (earlier in the
original list) is placed before every later element whose key is not
strictly greater, which is exactly the placement a stable descending
sort gives it. -/
def insertTaskDesc (x : TaskRecord) : List TaskRecord → List TaskRecord
  | [] => [x]
  | y :: ys =>
    if charListLt x.started_at.data y.started_at.data then y :: insertTaskDesc x ys
    else x :: y :: ys

/-- Models `tasks.sort(key=lambda x: x.get("started_at", ""), reverse=True)`:
a stable sort by the submission timestamp string, descending.  Python's
`list.sort` is stable, and a stable descending sort's output is uniquely
determined (permutation + descending keys + original order on ties), so
any stable sorting algorithm is a faithful model; insertion sort is used
because it is structurally recursive. -/
def sortTasksDesc (ts : List TaskRecord) : List TaskRecord :=
  ts.foldr insertTaskDesc []

def list_tasks (reg : Registry) (limit : Int) : List TaskRecord :=
  pySliceTo (sortTasksDesc (reg.map Prod.snd)) limit

def list_tasks_default (reg : Registry) : List TaskRecord :=
  list_tasks reg defaultListLimit

/-! ## The log capture filter (`TaskLogHandler.emit`)

The handler formats the record with `'%(message)s'` (so the input here is
the raw message line), keeps only lines containing the target-emoji
marker, strips ANSI colour codes with `re.sub(r'\[[\d;]*m', '', ...)`,
and extracts the goal text with
`re.search(r'TARGET\s*(?:Next\s+)?[Gg]oal:?\s*(.+)', clean_entry)`
(`TARGET` standing for the emoji).  The functions below implement exactly
those two regexes, including the backtracking Python's engine performs at
the optional `(?:Next\s+)?` group, the optional colon, and the `\s*`
before the greedy `(.+)` (whose `.` excludes newlines). -/

def targetChar : Char := '🎯'

/-- Models `\s` over the ASCII range (the log lines at issue are ASCII apart from
the emoji marker). -/
def isPySpace (c : Char) : Bool :=
  c = ' ' || c = '\t' || c = '\n' || c = '\r' || c = '\x0b' || c = '\x0c'

def isDigitSemi (c : Char) : Bool := c.isDigit || c = ';'

/-- Models `re.sub(r'\[[\d;]*m', '', s)` as a single left-to-right pass:
outside a candidate escape (`mode = none`) a `[` opens one and any other
character is kept; inside a candidate (`mode = some pending`, `pending`
holding the digit/semicolon run read so far) a digit or semicolon
extends it, an `m` completes it (the whole escape is deleted), and any
other character aborts it — the `[` and the pending run are emitted and,
since none of them can start an escape, scanning resumes at the
offending character, which is exactly where `re.sub` makes its next
match attempt.  An unterminated candidate at the end of input is emitted
verbatim. -/
def stripAnsiSM : List Char → Option (List Char) → List Char
  | [], none => []
  | [], some pending => '[' :: pending
  | c :: cs, none =>
    if c = '[' then stripAnsiSM cs (some [])
    else c :: stripAnsiSM cs none
  | c :: cs, some pending =>
    if isDigitSemi c then stripAnsiSM cs (some (pending ++ [c]))
    else if c = 'm' then stripAnsiSM cs none
    else if c = '[' then ('[' :: pending) ++ stripAnsiSM cs (some [])
    else ('[' :: pending) ++ (c :: stripAnsiSM cs none)

def stripAnsi (s : String) : String := ⟨stripAnsiSM s.data none⟩

/-- Models `(.+)` at the end of the pattern: matches iff the next character
exists and is not a newline; being greedy it captures up to the first
newline (or the end). -/
def dotPlus (l : List Char) : Option (List Char) :=
  match l with
  | [] => none
  | c :: _ => if c = '\n' then none else some (l.takeWhile (fun x => x ≠ '\n'))

/-- Models `\s*(.+)`: the star is greedy, but backtracks when `(.+)` has nothing
left; the regex engine then gives back trailing whitespace one character
at a time until `.` can match (a whitespace character other than `\n`). -/
def wsThenDotPlus (l : List Char) : Option (List Char) :=
  match dotPlus (l.dropWhile isPySpace) with
  | some g => some g
  | none =>
    match (l.takeWhile isPySpace).reverse.dropWhile (fun c => c = '\n') with
    | [] => none
    | c :: _ => some [c]

/-- Models `:?\s*(.+)`: try the colon first (greedy option), then without. -/
def colonWsDotPlus (l : List Char) : Option (List Char) :=
  match l with
  | ':' :: rest =>
    match wsThenDotPlus rest with
    | some g => some g
    | none => wsThenDotPlus l
  | _ => wsThenDotPlus l

/-- Models `[Gg]oal:?\s*(.+)`. -/
def goalWord (l : List Char) : Option (List Char) :=
  match l with
  | g :: 'o' :: 'a' :: 'l' :: rest =>
    if g = 'G' || g = 'g' then colonWsDotPlus rest else none
  | _ => none

/-- Models `(?:Next\s+)?[Gg]oal:?\s*(.+)`: try the optional group first; its
`\s+` is greedy and cannot overlap `[Gg]`, so it takes the maximal
whitespace run and needs at least one character. -/
def nextGoalPart (l : List Char) : Option (List Char) :=
  match l with
  | 'N' :: 'e' :: 'x' :: 't' :: rest =>
    let withNext : Option (List Char) :=
      match rest with
      | c :: _ =>
        if isPySpace c then goalWord (rest.dropWhile isPySpace) else none
      | [] => none
    match withNext with
    | some g => some g
    | none => goalWord l
  | _ => goalWord l

/-- The pattern after the emoji: `\s*(?:Next\s+)?[Gg]oal:?\s*(.+)`.  The
leading `\s*` never needs to backtrack because the following alternatives
start with `N`, `G` or `g`, none of which is whitespace. -/
def afterTarget (l : List Char) : Option (List Char) :=
  nextGoalPart (l.dropWhile isPySpace)

/-- Models `re.search`: the pattern starts with the emoji, so candidate match
positions are exactly its occurrences, tried left to right. -/
def goalSearchAux : List Char → Option (List Char)
  | [] => none
  | c :: cs =>
    if c = targetChar then
      match afterTarget cs with
      | some g => some g
      | none => goalSearchAux cs
    else goalSearchAux cs

/-- Models `group(1)` of the goal regex on a string, or `none` when `re.search`
finds no match. -/
def goalSearch (s : String) : Option String :=
  (goalSearchAux s.data).map (fun g => ⟨g⟩)

/-- Python `str.strip()` restricted to ASCII whitespace. -/
def pyStrip (s : String) : String :=
  ⟨((s.data.dropWhile isPySpace).reverse.dropWhile isPySpace).reverse⟩

def containsTarget (s : String) : Bool := s.data.contains targetChar

/-! ## Shared log state: `task_logs` and `log_listeners`

`task_logs: Dict[str, List[str]]` is the per-task append-only buffer;
`log_listeners: Dict[str, asyncio.Queue]` maps a task id to ONE bounded
queue (`maxsize=100`), created lazily by the first streaming session for
that id. -/

structure ListenerQueue where
  items : List String
  maxsize : Nat := 100
deriving DecidableEq, Repr

/-- Models `queue.put_nowait(e)`; `QueueFull` is swallowed by the caller, so a
full queue drops the entry. -/
def put_nowait (q : ListenerQueue) (e : String) : ListenerQueue :=
  if q.items.length < q.maxsize then { q with items := q.items ++ [e] } else q

structure LogState where
  task_logs : List (String × List String)
  log_listeners : List (String × ListenerQueue)
deriving DecidableEq, Repr

/-- Models `if task_id not in task_logs: task_logs[task_id] = []` followed by
`task_logs[task_id].append(e)`. -/
def appendLog (logs : List (String × List String)) (task_id : String)
    (e : String) : List (String × List String) :=
  if (alistLookup logs task_id).isSome then
    alistUpdate logs task_id (fun l => l ++ [e])
  else logs ++ [(task_id, [e])]

/-- Models `if task_id in log_listeners: log_listeners[task_id].put_nowait(e)`. -/
def notifyListeners (ls : List (String × ListenerQueue)) (task_id : String)
    (e : String) : List (String × ListenerQueue) :=
  if (alistLookup ls task_id).isSome then
    alistUpdate ls task_id (fun q => put_nowait q e)
  else ls

/-- Models `TaskLogHandler.emit`: capture the line iff it contains the emoji
marker AND the goal regex matches the ANSI-stripped line; on capture the
stripped group is appended to the buffer and pushed (non-blocking) to the
task's listener queue. -/
def emit (st : LogState) (task_id : String) (line : String) : LogState :=
  if containsTarget line then
    match goalSearch (stripAnsi line) with
    | some g =>
      let clean_goal := pyStrip g
      { task_logs := appendLog st.task_logs task_id clean_goal,
        log_listeners := notifyListeners st.log_listeners task_id clean_goal }
    | none => st
  else st

/-- Models `cleanup_logs` (scheduled in `run_task_async`'s `finally` block after
`cleanupDelaySeconds`): `task_logs.pop(task_id, None)` and
`log_listeners.pop(task_id, None)` — both maps, together. -/
def cleanup_logs (st : LogState) (task_id : String) : LogState :=
  { task_logs := alistPop st.task_logs task_id,
    log_listeners := alistPop st.log_listeners task_id }

/-! ## The streaming endpoint (`stream_task_logs.generate`) -/

/-- Models `if task_id not in log_listeners: log_listeners[task_id] =
asyncio.Queue(maxsize=100)` — note: no registry check, and the queue is
shared by every listener on this task id. -/
def openListenerQueue (ls : List (String × ListenerQueue)) (task_id : String) :
    List (String × ListenerQueue) :=
  if (alistLookup ls task_id).isSome then ls
  else ls ++ [(task_id, { items := [], maxsize := 100 })]

/-- One `await log_listeners[task_id].get()` under `asyncio.wait_for`:
pops the front entry when one is available; `none` models the 30-second
timeout (empty queue throughout the wait). -/
def listenerGet (st : LogState) (task_id : String) : Option String × LogState :=
  match alistLookup st.log_listeners task_id with
  | none => (none, st)
  | some q =>
    match q.items with
    | [] => (none, st)
    | e :: rest =>
      (some e,
       { st with log_listeners :=
           alistUpdate st.log_listeners task_id (fun qq => { qq with items := rest }) })

/-- Repeated `get`s by one listener session: pop up to `n` entries. -/
def listenerDrain (st : LogState) (task_id : String) :
    Nat → List String × LogState
  | 0 => ([], st)
  | n + 1 =>
    match listenerGet st task_id with
    | (some e, st') =>
      let r := listenerDrain st' task_id n
      (e :: r.1, r.2)
    | (none, st') => ([], st')

/-- What one iteration of the generator's body sends over the wire. -/
inductive StreamAction where
  | yieldChunk (chunk : String)
  | sleepPause (centiseconds : Nat)
deriving DecidableEq, Repr

/-- Models `yield f"data: \x7blog_entry\x7d\n\n"`. -/
def sseData (s : String) : String := "data: " ++ s ++ "\n\n"

/-- Python `l[-n:]`: the last `n` elements in their original order. -/
def lastN {α : Type} (n : Nat) (l : List α) : List α := l.drop (l.length - n)

/-- Models `asyncio.wait_for(..., timeout=30.0)`. -/
def streamTimeoutSeconds : Nat := 30

/-- Replay phase: `for log_entry in task_logs[task_id][-10:]` with
`await asyncio.sleep(0.1)` after each send. -/
def replayPhase (logs : List String) : List StreamAction :=
  ((lastN 10 logs).map
    (fun e => [StreamAction.yieldChunk (sseData e), StreamAction.sleepPause 10])).flatten

/-- Live phase: each loop iteration either forwards a dequeued entry or,
on `asyncio.TimeoutError`, sends the keepalive and keeps looping.  The
iteration outcomes (`some` entry popped before the timeout / `none`
timeout) are the input. -/
def livePhase (waitResults : List (Option String)) : List StreamAction :=
  waitResults.map (fun r =>
    match r with
    | some e => StreamAction.yieldChunk (sseData e)
    | none => StreamAction.yieldChunk (sseData "keepalive"))

/-- The whole generator body: create the shared queue if absent (not
modelled here — see `openListenerQueue`), replay the last 10 buffered
entries when the task has a buffer, then loop on the queue. -/
def generate (bufferedLogs : Option (List String))
    (waitResults : List (Option String)) : List StreamAction :=
  (match bufferedLogs with
   | some logs => replayPhase logs
   | none => []) ++ livePhase waitResults

/-- The payloads a client receives, in order. -/
def yieldPayloads (acts : List StreamAction) : List String :=
  acts.filterMap (fun a =>
    match a with
    | .yieldChunk s => some s
    | .sleepPause _ => none)

/-! ## The capture test as the specification words it

The spec describes the capture filter as extracting "the goal text via
pattern match on a 'goal:' marker (case-insensitive, optional leading
'Next')".  `claimCapture` formalises that wording — fully
case-insensitive `goal:` marker with its colon, optionally preceded by a
case-insensitive `Next` — for comparison against the source's `emit`,
whose regex `[Gg]oal:?` is case-insensitive only in its first letter and
makes the colon optional. -/

def lowerEq (a b : Char) : Bool := a.toLower = b.toLower

def ciConsume : List Char → List Char → Option (List Char)
  | [], rest => some rest
  | _ :: _, [] => none
  | p :: ps, c :: cs => if lowerEq p c then ciConsume ps cs else none

def specAfterTarget (l : List Char) : Bool :=
  let l1 := l.dropWhile isPySpace
  let tryGoal : List Char → Bool := fun m =>
    match ciConsume "goal:".data m with
    | some rest => decide ((rest.dropWhile isPySpace) ≠ [])
    | none => false
  match ciConsume "next".data l1 with
  | some rest =>
    (match rest with
     | c :: _ => if isPySpace c then tryGoal (rest.dropWhile isPySpace) else tryGoal l1
     | [] => tryGoal l1)
  | none => tryGoal l1

def specCaptureAux : List Char → Bool
  | [] => false
  | c :: cs =>
    if c = targetChar then (specAfterTarget cs || specCaptureAux cs)
    else specCaptureAux cs

/-- The claim's reading of "the line contains the next-goal progress
marker": after ANSI stripping, the marker emoji followed by an optional
case-insensitive `Next` and a case-insensitive `goal:` marker with
nonempty goal text. -/
def claimCapture (line : String) : Bool := specCaptureAux (stripAnsi line).data

/-! ## Concrete fixtures used by witnesses and counterexamples -/

def emptyLogState : LogState := { task_logs := [], log_listeners := [] }

/-- Successive `put_nowait` calls, as the capture filter performs while a
listener queue exists for the task. -/
def pushAll (q : ListenerQueue) (es : List String) : ListenerQueue :=
  es.foldl put_nowait q

/-- A task record that has already reached the terminal status
`finished`. -/
def finishedDemoRec : TaskRecord :=
  { id := "t1", status := "finished", task := "find weather",
    started_at := "2026-01-01T00:00:00", completed_at := some "2026-01-01T00:01:00" }

/-- The five synthetic goal lines of the listener-isolation test. -/
def c2Lines : List String :=
  ["🎯 Next goal: g1", "🎯 Next goal: g2", "🎯 Next goal: g3",
   "🎯 Next goal: g4", "🎯 Next goal: g5"]

/-- Shared state after two streaming sessions opened on task `t1` and the
five synthetic goal lines were captured. -/
def c2State : LogState :=
  c2Lines.foldl (fun st l => emit st "t1" l)
    { task_logs := [],
      log_listeners := openListenerQueue (openListenerQueue [] "t1") "t1" }

def c8RecOld : TaskRecord :=
  { id := "a", status := "running", task := "task a",
    started_at := "2026-01-01T00:00:01" }

def c8RecNew : TaskRecord :=
  { id := "b", status := "running", task := "task b",
    started_at := "2026-01-01T00:00:02" }

/-- A registry holding two tasks, the newer submitted last. -/
def c8Reg : Registry := [("a", c8RecOld), ("b", c8RecNew)]

/-- A client of the external library whose construction succeeds. -/
def okAgentCtor : String → Except String Agent := fun t => .ok { task := t }

/-- A client of the external library whose construction raises. -/
def failAgentCtor : String → Except String Agent :=
  fun _ => .error "browser not available"

/-- A one-entry listener queue used to exercise the get/notify lemmas. -/
def c2aQueue : ListenerQueue := { items := ["a"], maxsize := 100 }

/-- A log state with one listener queue holding one entry. -/
def c2aState : LogState := { task_logs := [], log_listeners := [("t1", c2aQueue)] }

/-- The running record of the "find weather" scenario. -/
def weatherRec : TaskRecord :=
  { id := "w1", status := "running", task := "find weather",
    started_at := "2026-01-02T10:00:00" }

/-- The simulated execution result of the "find weather" scenario. -/
def sunnyResult : AgentResult :=
  { final_result := "Sunny", urls := ["https://w.com"],
    action_names := ["navigate", "extract"] }

/-! ## Helper lemmas -/

theorem alistLookup_update_self {α : Type} (m : List (String × α)) (key : String)
    (f : α → α) : alistLookup (alistUpdate m key f) key = (alistLookup m key).map f := by
  induction m with
  | nil => rfl
  | cons p rest ih =>
    obtain ⟨k, v⟩ := p
    by_cases h : k = key
    · simp [alistUpdate, alistLookup, h]
    · simp only [alistUpdate, alistLookup, if_neg h]
      exact ih

theorem alistLookup_update_other {α : Type} (m : List (String × α)) (key key' : String)
    (f : α → α) (hne : key' ≠ key) :
    alistLookup (alistUpdate m key f) key' = alistLookup m key' := by
  induction m with
  | nil => rfl
  | cons p rest ih =>
    obtain ⟨k, v⟩ := p
    by_cases h : k = key
    · subst h
      have hkk : k ≠ key' := fun h => hne h.symm
      simp only [alistUpdate, if_pos rfl, alistLookup, if_neg hkk]
      exact ih
    · simp only [alistUpdate, if_neg h, alistLookup]
      by_cases h' : k = key'
      · simp [h']
      · simp only [if_neg h']
        exact ih

theorem alistLookup_append_right {α : Type} (m : List (String × α)) (key : String)
    (v : α) (h : alistLookup m key = none) :
    alistLookup (m ++ [(key, v)]) key = some v := by
  induction m with
  | nil => simp [alistLookup]
  | cons p rest ih =>
    obtain ⟨k, w⟩ := p
    by_cases hk : k = key
    · simp [alistLookup, hk] at h
    · simp [alistLookup, hk] at h ⊢
      exact ih h

theorem alistLookup_insert_self {α : Type} (m : List (String × α)) (key : String)
    (v : α) : alistLookup (alistInsert m key v) key = some v := by
  unfold alistInsert
  by_cases h : (alistLookup m key).isSome
  · simp only [h, if_true]
    rw [alistLookup_update_self]
    obtain ⟨w, hw⟩ := Option.isSome_iff_exists.mp h
    simp [hw]
  · simp only [h, if_false]
    exact alistLookup_append_right m key v (Option.not_isSome_iff_eq_none.mp h)

theorem alistLookup_pop_self {α : Type} (m : List (String × α)) (key : String) :
    alistLookup (alistPop m key) key = none := by
  induction m with
  | nil => rfl
  | cons p rest ih =>
    obtain ⟨k, v⟩ := p
    by_cases h : k = key
    · simp only [alistPop, if_pos h]
      exact ih
    · simp only [alistPop, if_neg h, alistLookup, if_neg h]
      exact ih

theorem stripAnsiSM_mem : ∀ (l : List Char) (mode : Option (List Char)) (x : Char),
    x ∈ stripAnsiSM l mode →
    x ∈ l ∨ ∃ p, mode = some p ∧ (x = '[' ∨ x ∈ p) := by
  intro l
  induction l with
  | nil =>
    intro mode x h
    cases mode with
    | none => simp [stripAnsiSM] at h
    | some p =>
      simp only [stripAnsiSM] at h
      rcases List.mem_cons.mp h with h1 | h2
      · exact Or.inr ⟨p, rfl, Or.inl h1⟩
      · exact Or.inr ⟨p, rfl, Or.inr h2⟩
  | cons c cs ih =>
    intro mode x h
    cases mode with
    | none =>
      simp only [stripAnsiSM] at h
      by_cases hc : c = '['
      · rw [if_pos hc] at h
        rcases ih (some []) x h with h1 | ⟨p, hp, hor⟩
        · exact Or.inl (List.mem_cons_of_mem c h1)
        · cases hp
          rcases hor with h2 | h3
          · subst h2
            rw [hc]
            exact Or.inl (List.mem_cons_self _ _)
          · simp at h3
      · rw [if_neg hc] at h
        rcases List.mem_cons.mp h with h1 | h2
        · exact Or.inl (List.mem_cons.mpr (Or.inl h1))
        · rcases ih none x h2 with h3 | ⟨p, hp, _⟩
          · exact Or.inl (List.mem_cons_of_mem c h3)
          · simp at hp
    | some pending =>
      simp only [stripAnsiSM] at h
      by_cases hd : isDigitSemi c
      · rw [if_pos hd] at h
        rcases ih (some (pending ++ [c])) x h with h1 | ⟨p, hp, hor⟩
        · exact Or.inl (List.mem_cons_of_mem c h1)
        · cases hp
          rcases hor with h2 | h3
          · exact Or.inr ⟨pending, rfl, Or.inl h2⟩
          · rcases List.mem_append.mp h3 with h4 | h5
            · exact Or.inr ⟨pending, rfl, Or.inr h4⟩
            · simp only [List.mem_singleton] at h5
              subst h5
              exact Or.inl (List.mem_cons_self _ _)
      · rw [if_neg hd] at h
        by_cases hm : c = 'm'
        · rw [if_pos hm] at h
          rcases ih none x h with h1 | ⟨p, hp, _⟩
          · exact Or.inl (List.mem_cons_of_mem c h1)
          · simp at hp
        · rw [if_neg hm] at h
          by_cases hbr : c = '['
          · rw [if_pos hbr] at h
            rcases List.mem_append.mp h with h1 | h2
            · rcases List.mem_cons.mp h1 with h3 | h4
              · exact Or.inr ⟨pending, rfl, Or.inl h3⟩
              · exact Or.inr ⟨pending, rfl, Or.inr h4⟩
            · rcases ih (some []) x h2 with h3 | ⟨p, hp, hor⟩
              · exact Or.inl (List.mem_cons_of_mem c h3)
              · cases hp
                rcases hor with h4 | h5
                · subst h4
                  rw [hbr]
                  exact Or.inl (List.mem_cons_self _ _)
                · simp at h5
          · rw [if_neg hbr] at h
            rcases List.mem_append.mp h with h1 | h2
            · rcases List.mem_cons.mp h1 with h3 | h4
              · exact Or.inr ⟨pending, rfl, Or.inl h3⟩
              · exact Or.inr ⟨pending, rfl, Or.inr h4⟩
            · rcases List.mem_cons.mp h2 with h3 | h4
              · exact Or.inl (List.mem_cons.mpr (Or.inl h3))
              · rcases ih none x h4 with h5 | ⟨p, hp, _⟩
                · exact Or.inl (List.mem_cons_of_mem c h5)
                · simp at hp

theorem goalSearchAux_target_mem : ∀ (l g : List Char), goalSearchAux l = some g →
    targetChar ∈ l := by
  intro l
  induction l with
  | nil => intro g h; simp [goalSearchAux] at h
  | cons c cs ih =>
    intro g h
    simp only [goalSearchAux] at h
    by_cases hc : c = targetChar
    · exact List.mem_cons.mpr (Or.inl hc.symm)
    · simp only [hc, if_false] at h
      exact List.mem_cons_of_mem c (ih g h)

/-- On a match, the separate emoji-containment test of `emit` is always
satisfied: the goal pattern itself requires the emoji, and ANSI
stripping only deletes characters. -/
theorem containsTarget_of_goalSearch (line : String) (g : String)
    (h : goalSearch (stripAnsi line) = some g) : containsTarget line = true := by
  unfold goalSearch at h
  obtain ⟨g', hg', _⟩ := Option.map_eq_some'.mp h
  have h1 : targetChar ∈ (stripAnsi line).data := goalSearchAux_target_mem _ g' hg'
  have h2 : targetChar ∈ line.data := by
    have heq : (stripAnsi line).data = stripAnsiSM line.data none := rfl
    rw [heq] at h1
    rcases stripAnsiSM_mem line.data none targetChar h1 with hm | ⟨p, hp, _⟩
    · exact hm
    · simp at hp
  unfold containsTarget
  simpa using h2

theorem pushAll_items : ∀ (es : List String) (q : ListenerQueue),
    q.items.length + es.length ≤ q.maxsize → (pushAll q es).items = q.items ++ es := by
  intro es
  induction es with
  | nil => intro q _; simp [pushAll]
  | cons e rest ih =>
    intro q hq
    simp only [List.length_cons] at hq
    have hlt : q.items.length < q.maxsize := by omega
    have step : put_nowait q e = { q with items := q.items ++ [e] } := by
      simp [put_nowait, hlt]
    show (pushAll (put_nowait q e) rest).items = q.items ++ e :: rest
    rw [step, ih { q with items := q.items ++ [e] } (by simp; omega)]
    simp

theorem listenerGet_cons (st : LogState) (task_id : String) (q : ListenerQueue)
    (e : String) (rest : List String) (hq : alistLookup st.log_listeners task_id = some q)
    (hi : q.items = e :: rest) :
    listenerGet st task_id =
      (some e,
       { st with log_listeners :=
           alistUpdate st.log_listeners task_id (fun qq => { qq with items := rest }) }) := by
  simp [listenerGet, hq, hi]

theorem listenerDrain_all : ∀ (l : List String) (st : LogState) (task_id : String)
    (q : ListenerQueue), alistLookup st.log_listeners task_id = some q →
    q.items = l → (listenerDrain st task_id l.length).1 = l := by
  intro l
  induction l with
  | nil => intro st task_id q _ _; rfl
  | cons e rest ih =>
    intro st task_id q hq hi
    have hget := listenerGet_cons st task_id q e rest hq hi
    show (listenerDrain st task_id (rest.length + 1)).1 = e :: rest
    have hdrain : listenerDrain st task_id (rest.length + 1) =
        match listenerGet st task_id with
        | (some x, st') =>
          let r := listenerDrain st' task_id rest.length
          (x :: r.1, r.2)
        | (none, st') => ([], st') := rfl
    rw [hdrain, hget]
    simp only
    congr 1
    apply ih _ task_id { q with items := rest }
    · simp only
      rw [alistLookup_update_self, hq]
      rfl
    · rfl

theorem yieldPayloads_append (a b : List StreamAction) :
    yieldPayloads (a ++ b) = yieldPayloads a ++ yieldPayloads b := by
  simp [yieldPayloads]

theorem yieldPayloads_replayOf : ∀ (l : List String),
    yieldPayloads ((l.map
      (fun e => [StreamAction.yieldChunk (sseData e), StreamAction.sleepPause 10])).flatten)
      = l.map sseData := by
  intro l
  induction l with
  | nil => rfl
  | cons e rest ih =>
    simp only [List.map_cons, List.flatten_cons]
    rw [yieldPayloads_append]
    rw [ih]
    rfl

theorem yieldPayloads_live (ws : List (Option String)) :
    yieldPayloads (livePhase ws) = ws.map (fun r => sseData (r.getD "keepalive")) := by
  induction ws with
  | nil => rfl
  | cons w rest ih =>
    cases w with
    | some e =>
      simp only [livePhase, List.map_cons] at ih ⊢
      rw [show yieldPayloads (StreamAction.yieldChunk (sseData e) ::
            rest.map (fun r => match r with
              | some x => StreamAction.yieldChunk (sseData x)
              | none => StreamAction.yieldChunk (sseData "keepalive"))) =
          sseData e :: yieldPayloads (rest.map (fun r => match r with
              | some x => StreamAction.yieldChunk (sseData x)
              | none => StreamAction.yieldChunk (sseData "keepalive"))) from rfl]
      rw [ih]
      rfl
    | none =>
      simp only [livePhase, List.map_cons] at ih ⊢
      rw [show yieldPayloads (StreamAction.yieldChunk (sseData "keepalive") ::
            rest.map (fun r => match r with
              | some x => StreamAction.yieldChunk (sseData x)
              | none => StreamAction.yieldChunk (sseData "keepalive"))) =
          sseData "keepalive" :: yieldPayloads (rest.map (fun r => match r with
              | some x => StreamAction.yieldChunk (sseData x)
              | none => StreamAction.yieldChunk (sseData "keepalive"))) from rfl]
      rw [ih]
      rfl

theorem lt_charListLt (l1 l2 : List Char) (h : l1 < l2) :
    charListLt l1 l2 = true := by
  induction h with
  | nil => rfl
  | cons h ih => simp [charListLt, lt_irrefl, ih]
  | rel hab => simp [charListLt, hab]

/-- When the executable comparison says "not less", the standard string
order says "greater or equal". -/
theorem charListLt_false_le (x y : String)
    (h : charListLt x.data y.data = false) : y ≤ x := by
  refine le_of_not_lt (fun hlt => ?_)
  have hxy : x.toList < y.toList := String.lt_iff_toList_lt.mp hlt
  have h2 : charListLt x.data y.data = true := lt_charListLt _ _ hxy
  rw [h2] at h
  cases h

theorem charListLt_asymm : ∀ (l1 l2 : List Char),
    charListLt l1 l2 = true → charListLt l2 l1 = false := by
  intro l1
  induction l1 with
  | nil =>
    intro l2 h
    cases l2 with
    | nil => simp [charListLt] at h
    | cons b bs => rfl
  | cons a as ih =>
    intro l2 h
    cases l2 with
    | nil => simp [charListLt] at h
    | cons b bs =>
      simp only [charListLt] at h ⊢
      by_cases hab : a < b
      · have hba : ¬ b < a := lt_asymm hab
        simp [hba, hab]
      · simp only [hab, if_false] at h
        by_cases hba : b < a
        · simp [hba] at h
        · simp only [hba, if_false] at h
          simp only [hba, hab, if_false]
          exact ih bs h

theorem charListLt_ge_trans : ∀ (l1 l2 l3 : List Char),
    charListLt l1 l2 = false → charListLt l2 l3 = false →
    charListLt l1 l3 = false := by
  intro l1
  induction l1 with
  | nil =>
    intro l2 l3 h12 h23
    cases l2 with
    | nil =>
      cases l3 with
      | nil => rfl
      | cons c cs => simp [charListLt] at h23
    | cons b bs => simp [charListLt] at h12
  | cons a as ih =>
    intro l2 l3 h12 h23
    cases l3 with
    | nil => rfl
    | cons c cs =>
      cases l2 with
      | nil => simp [charListLt] at h23
      | cons b bs =>
        simp only [charListLt] at h12 h23 ⊢
        by_cases hab : a < b
        · simp [hab] at h12
        · simp only [hab, if_false] at h12
          by_cases hbc : b < c
          · simp [hbc] at h23
          · simp only [hbc, if_false] at h23
            have hba' : b ≤ a := not_lt.mp hab
            have hcb' : c ≤ b := not_lt.mp hbc
            have hac : ¬ a < c := not_lt.mpr (le_trans hcb' hba')
            simp only [hac, if_false]
            by_cases hca : c < a
            · simp [hca]
            · simp only [hca, if_false]
              have hacq : a = c := le_antisymm (not_lt.mp hca) (le_trans hcb' hba')
              have habq : a = b := le_antisymm (hacq ▸ hcb') hba'
              have hbcq : b = c := habq.symm.trans hacq
              have hnba : ¬ b < a := by rw [← habq]; exact lt_irrefl a
              have hncb : ¬ c < b := by rw [← hbcq]; exact lt_irrefl b
              simp only [hnba, if_false] at h12
              simp only [hncb, if_false] at h23
              exact ih bs cs h12 h23

theorem mem_insertTaskDesc : ∀ (l : List TaskRecord) (x z : TaskRecord),
    z ∈ insertTaskDesc x l → z = x ∨ z ∈ l := by
  intro l
  induction l with
  | nil => intro x z h; simp [insertTaskDesc] at h; exact Or.inl h
  | cons y ys ih =>
    intro x z h
    simp only [insertTaskDesc] at h
    by_cases hlt : charListLt x.started_at.data y.started_at.data = true
    · simp only [hlt, if_true] at h
      rcases List.mem_cons.mp h with h1 | h2
      · exact Or.inr (h1 ▸ List.mem_cons_self y ys)
      · rcases ih x z h2 with h3 | h4
        · exact Or.inl h3
        · exact Or.inr (List.mem_cons_of_mem y h4)
    · simp only [hlt, if_false] at h
      rcases List.mem_cons.mp h with h1 | h2
      · exact Or.inl h1
      · exact Or.inr h2

theorem pairwise_insertTaskDesc : ∀ (l : List TaskRecord) (x : TaskRecord),
    List.Pairwise (fun a b => charListLt a.started_at.data b.started_at.data = false) l →
    List.Pairwise (fun a b => charListLt a.started_at.data b.started_at.data = false)
      (insertTaskDesc x l) := by
  intro l
  induction l with
  | nil => intro x _; simp [insertTaskDesc]
  | cons y ys ih =>
    intro x hp
    rw [List.pairwise_cons] at hp
    obtain ⟨hy, hys⟩ := hp
    simp only [insertTaskDesc]
    by_cases hlt : charListLt x.started_at.data y.started_at.data = true
    · simp only [hlt, if_true]
      rw [List.pairwise_cons]
      constructor
      · intro z hz
        rcases mem_insertTaskDesc ys x z hz with h1 | h2
        · rw [h1]
          exact charListLt_asymm _ _ hlt
        · exact hy z h2
      · exact ih x hys
    · have hfalse : charListLt x.started_at.data y.started_at.data = false := by
        simp only [Bool.not_eq_true] at hlt
        exact hlt
      simp only [hfalse, Bool.false_eq_true, if_false]
      rw [List.pairwise_cons]
      constructor
      · intro z hz
        rcases List.mem_cons.mp hz with h1 | h2
        · rw [h1]
          exact hfalse
        · exact charListLt_ge_trans _ _ _ hfalse (hy z h2)
      · rw [List.pairwise_cons]
        exact ⟨hy, hys⟩

theorem sortTasksDesc_pairwise (ts : List TaskRecord) :
    List.Pairwise (fun a b => charListLt a.started_at.data b.started_at.data = false)
      (sortTasksDesc ts) := by
  induction ts with
  | nil => simp [sortTasksDesc]
  | cons t rest ih => exact pairwise_insertTaskDesc _ t ih

theorem insertTaskDesc_perm : ∀ (l : List TaskRecord) (x : TaskRecord),
    List.Perm (insertTaskDesc x l) (x :: l) := by
  intro l
  induction l with
  | nil => intro x; simp [insertTaskDesc]
  | cons y ys ih =>
    intro x
    simp only [insertTaskDesc]
    by_cases hlt : charListLt x.started_at.data y.started_at.data = true
    · simp only [hlt, if_true]
      exact (List.Perm.cons y (ih x)).trans (List.Perm.swap x y ys)
    · simp only [hlt, if_false]
      exact List.Perm.refl _

theorem sortTasksDesc_perm (ts : List TaskRecord) :
    List.Perm (sortTasksDesc ts) ts := by
  induction ts with
  | nil => simp [sortTasksDesc]
  | cons t rest ih =>
    exact (insertTaskDesc_perm (sortTasksDesc rest) t).trans (List.Perm.cons t ih)

theorem flatten_pairs_length : ∀ (l : List String),
    ((l.map (fun e => [StreamAction.yieldChunk (sseData e),
        StreamAction.sleepPause 10])).flatten).length = 2 * l.length := by
  intro l
  induction l with
  | nil => rfl
  | cons e rest ih =>
    simp only [List.map_cons, List.flatten_cons, List.length_append, ih,
      List.length_cons]
    simp only [List.length_nil]
    omega

/-! ## Claim theorems -/

/-- C1 counterexample: the claim says that once a task is `finished` no
pause or stop request changes it, and that a stop succeeds only from
`running` or `paused`.  On a registry holding a `finished` record, a
pause request succeeds and rewrites the status to `paused`, and a stop
request succeeds and rewrites it to `stopped` — the handlers check only
that the id exists. -/
theorem C1_counterexample :
    finishedDemoRec.status = "finished"
    ∧ (pause_task [("t1", finishedDemoRec)] "t1").1 =
        [("t1", { finishedDemoRec with status := "paused" })]
    ∧ (pause_task [("t1", finishedDemoRec)] "t1").2.isOk = true
    ∧ (stop_task [("t1", finishedDemoRec)] "t1" "2026-01-01T00:02:00").1 =
        [("t1", { finishedDemoRec with
                    status := "stopped",
                    completed_at := some "2026-01-01T00:02:00" })]
    ∧ (stop_task [("t1", finishedDemoRec)] "t1" "2026-01-01T00:02:00").2.isOk = true :=
  ⟨rfl, rfl, rfl, rfl, rfl⟩

/-- C1 (amended): pause, resume and stop requests succeed for every task
id present in the registry regardless of its current status — pause sets
`paused`, resume sets `running`, stop sets `stopped` with a completion
timestamp, including from `finished` or `failed`; only an absent id is
rejected (with 404). -/
theorem C1_amended (reg : Registry) (task_id now : String) (r : TaskRecord)
    (h : alistLookup reg task_id = some r) :
    alistLookup (pause_task reg task_id).1 task_id =
        some { r with status := "paused" }
    ∧ (pause_task reg task_id).2.isOk = true
    ∧ alistLookup (resume_task reg task_id).1 task_id =
        some { r with status := "running" }
    ∧ (resume_task reg task_id).2.isOk = true
    ∧ alistLookup (stop_task reg task_id now).1 task_id =
        some { r with
                 status := "stopped",
                 completed_at := some now }
    ∧ (stop_task reg task_id now).2.isOk = true := by
  have hs : (alistLookup reg task_id).isSome = true := by rw [h]; rfl
  refine ⟨?_, ?_, ?_, ?_, ?_, ?_⟩
  · simp only [pause_task, hs, if_true]
    rw [alistLookup_update_self, h]
    rfl
  · simp only [pause_task, hs, if_true]
    rfl
  · simp only [resume_task, hs, if_true]
    rw [alistLookup_update_self, h]
    rfl
  · simp only [resume_task, hs, if_true]
    rfl
  · simp only [stop_task, hs, if_true]
    rw [alistLookup_update_self, h]
    rfl
  · simp only [stop_task, hs, if_true]
    rfl

theorem C1_amended_witness :
    alistLookup (pause_task [("t1", finishedDemoRec)] "t1").1 "t1" =
        some { finishedDemoRec with status := "paused" }
    ∧ (pause_task [("t1", finishedDemoRec)] "t1").2.isOk = true
    ∧ alistLookup (resume_task [("t1", finishedDemoRec)] "t1").1 "t1" =
        some { finishedDemoRec with status := "running" }
    ∧ (resume_task [("t1", finishedDemoRec)] "t1").2.isOk = true
    ∧ alistLookup (stop_task [("t1", finishedDemoRec)] "t1" "2026-01-01T00:02:00").1 "t1" =
        some { finishedDemoRec with
                 status := "stopped",
                 completed_at := some "2026-01-01T00:02:00" }
    ∧ (stop_task [("t1", finishedDemoRec)] "t1" "2026-01-01T00:02:00").2.isOk = true :=
  C1_amended [("t1", finishedDemoRec)] "t1" "2026-01-01T00:02:00" finishedDemoRec rfl

/-- C5: when the execution completes without error, the supervisor
rewrites the task's registry record to status `finished` with the
completion timestamp, the output set to the run's final result, the
visited URLs, the ordered action names, and a step count equal to the
length of the action-name list. -/
theorem C5_success_finalizes (reg : Registry) (task_id completedAt : String)
    (r : TaskRecord) (result : AgentResult)
    (h : alistLookup reg task_id = some r) :
    alistLookup (run_task_async reg task_id (.ok result) completedAt) task_id =
      some { r with
               status := "finished",
               completed_at := some completedAt,
               output := some result.final_result,
               urls_visited := some result.urls,
               actions := some result.action_names,
               steps := some result.action_names.length } := by
  simp only [run_task_async]
  rw [alistLookup_update_self, h]
  rfl

theorem C5_success_finalizes_witness :
    alistLookup (run_task_async [("w1", weatherRec)] "w1"
        (.ok sunnyResult) "2026-01-02T10:05:00") "w1" =
      some { weatherRec with
               status := "finished",
               completed_at := some "2026-01-02T10:05:00",
               output := some "Sunny",
               urls_visited := some ["https://w.com"],
               actions := some ["navigate", "extract"],
               steps := some 2 } :=
  C5_success_finalizes [("w1", weatherRec)] "w1" "2026-01-02T10:05:00"
    weatherRec sunnyResult rfl

/-- C6: when the execution raises, the supervisor (whose model is a total
function — every exception is caught, so no HTTP error is produced)
rewrites the record to status `failed` with the completion timestamp and
the stringified failure reason, and a subsequent status query observes
exactly that record. -/
theorem C6_failure_recorded (reg : Registry) (task_id completedAt e : String)
    (r : TaskRecord) (h : alistLookup reg task_id = some r) :
    get_task (run_task_async reg task_id (.error e) completedAt) task_id =
      .ok { r with
              status := "failed",
              completed_at := some completedAt,
              error := some e } := by
  simp only [run_task_async, get_task]
  rw [alistLookup_update_self, h]
  rfl

theorem C6_failure_recorded_witness :
    get_task (run_task_async [("w1", weatherRec)] "w1" (.error "timeout")
        "2026-01-02T10:05:00") "w1" =
      .ok { weatherRec with
              status := "failed",
              completed_at := some "2026-01-02T10:05:00",
              error := some "timeout" } :=
  C6_failure_recorded [("w1", weatherRec)] "w1" "2026-01-02T10:05:00" "timeout"
    weatherRec rfl

set_option maxRecDepth 8192 in
/-- C9: immediately after a successful submission, fetching the task
returns status `running` and the original task text — which differs from
the enhanced instruction text handed to the agent. -/
theorem C9_submission_visible (reg : Registry)
    (task_id taskText startedAt : String)
    (ctor : String → Except String Agent) (a : Agent)
    (h : ctor (enhanced_task taskText) = .ok a) :
    get_task (run_task reg task_id taskText startedAt ctor).1 task_id =
      .ok { id := task_id, status := "running", task := taskText,
            started_at := startedAt }
    ∧ taskText ≠ enhanced_task taskText := by
  constructor
  · simp only [run_task, h]
    simp only [get_task]
    rw [alistLookup_insert_self]
  · intro heq
    have hlen : taskText.length = (taskText ++ taskSuffix).length := by
      conv_lhs => rw [heq, enhanced_task]
    rw [String.length_append] at hlen
    have hpos : 0 < taskSuffix.length := by decide
    omega

theorem C9_submission_visible_witness :
    get_task (run_task [] "id1" "find weather" "2026-01-02T10:00:00"
        okAgentCtor).1 "id1" =
      .ok { id := "id1", status := "running", task := "find weather",
            started_at := "2026-01-02T10:00:00" }
    ∧ "find weather" ≠ enhanced_task "find weather" :=
  C9_submission_visible [] "id1" "find weather" "2026-01-02T10:00:00" okAgentCtor
    { task := enhanced_task "find weather" } rfl

/-- C10: when a submission step raises (modelled by the agent
constructor, which the source calls before the registry write — every
fallible submission step precedes `active_tasks[task_id] = ...`), the
caller gets HTTP 500 and the registry is returned unchanged: submission
is atomic with respect to the registry. -/
theorem C10_submission_atomic (reg : Registry)
    (task_id taskText startedAt e : String)
    (ctor : String → Except String Agent)
    (h : ctor (enhanced_task taskText) = .error e) :
    run_task reg task_id taskText startedAt ctor = (reg, .error ⟨500, e⟩) := by
  simp only [run_task, h]

theorem C10_submission_atomic_witness :
    run_task [("t1", finishedDemoRec)] "id2" "find weather"
        "2026-01-02T10:00:00" failAgentCtor =
      ([("t1", finishedDemoRec)], .error ⟨500, "browser not available"⟩) :=
  C10_submission_atomic [("t1", finishedDemoRec)] "id2" "find weather"
    "2026-01-02T10:00:00" "browser not available" failAgentCtor rfl

/-- C4 counterexample: the claim says every key of the listener-queue map
corresponds to a task that was or is in the registry.  A streaming
request for an unknown id on an empty registry creates a listener queue
for it — the generator performs no registry check. -/
theorem C4_counterexample :
    alistLookup (openListenerQueue [] "ghost") "ghost" =
        some { items := [], maxsize := 100 }
    ∧ alistLookup ([] : Registry) "ghost" = none :=
  ⟨rfl, rfl⟩

/-- C4 (amended): after the fixed retention delay following completion or
failure the identifier's entries are removed from the log-buffer map and
the listener-queue map together, regardless of the recorded status; but
map keys need not correspond to registered tasks — a streaming request
creates a listener queue for any identifier, registered or not. -/
theorem C4_amended (st : LogState) (task_id : String) :
    alistLookup (cleanup_logs st task_id).task_logs task_id = none
    ∧ alistLookup (cleanup_logs st task_id).log_listeners task_id = none
    ∧ (alistLookup st.log_listeners task_id = none →
        alistLookup (openListenerQueue st.log_listeners task_id) task_id =
          some { items := [], maxsize := 100 }) := by
  refine ⟨alistLookup_pop_self _ _, alistLookup_pop_self _ _, ?_⟩
  intro h
  unfold openListenerQueue
  rw [h]
  simp only [Option.isSome_none, Bool.false_eq_true, if_false]
  exact alistLookup_append_right _ _ _ h

theorem C4_amended_witness :
    alistLookup (cleanup_logs emptyLogState "ghost").task_logs "ghost" = none
    ∧ alistLookup (cleanup_logs emptyLogState "ghost").log_listeners "ghost" = none
    ∧ alistLookup (openListenerQueue emptyLogState.log_listeners "ghost") "ghost" =
        some { items := [], maxsize := 100 } :=
  ⟨(C4_amended emptyLogState "ghost").1, (C4_amended emptyLogState "ghost").2.1,
   (C4_amended emptyLogState "ghost").2.2 rfl⟩

/-- C8 counterexample: the claim quantifies over every limit value, and
the endpoint declares `limit: int = 50`, so negative values reach the
slice `tasks[:limit]`.  On a two-task registry with `limit = -1` the
endpoint returns one record (all but the oldest), although a truncation
to "at most the first N records" admits none for a negative N. -/
theorem C8_counterexample :
    list_tasks c8Reg (-1) = [c8RecNew]
    ∧ Int.toNat (-1) = 0
    ∧ ¬ ((list_tasks c8Reg (-1)).length ≤ Int.toNat (-1)) := by
  refine ⟨rfl, rfl, ?_⟩
  decide

/-- C8 (amended): for every nonnegative limit, listing returns the
registry's records stable-sorted by submission timestamp descending and
truncated to the first `limit` of them (the sorted sequence being a
permutation of the registry's values, pairwise descending, and the
result at most `limit` long); the default limit is 50.  A negative limit
instead drops the last `|limit|` records of the descending order
(Python slice semantics), as the counterexample exhibits. -/
theorem C8_amended (reg : Registry) (limit : Int) (h : 0 ≤ limit) :
    list_tasks reg limit = (sortTasksDesc (reg.map Prod.snd)).take limit.toNat
    ∧ List.Pairwise (fun a b => b.started_at ≤ a.started_at) (list_tasks reg limit)
    ∧ (list_tasks reg limit).length ≤ limit.toNat
    ∧ List.Perm (sortTasksDesc (reg.map Prod.snd)) (reg.map Prod.snd)
    ∧ list_tasks_default reg = list_tasks reg 50 := by
  have h1 : list_tasks reg limit =
      (sortTasksDesc (reg.map Prod.snd)).take limit.toNat := by
    unfold list_tasks pySliceTo
    rw [if_pos h]
  refine ⟨h1, ?_, ?_, sortTasksDesc_perm _, rfl⟩
  · rw [h1]
    refine List.Pairwise.imp ?_
      ((sortTasksDesc_pairwise _).sublist (List.take_sublist _ _))
    intro a b hab
    exact charListLt_false_le _ _ hab
  · rw [h1]
    simp only [List.length_take]
    exact Nat.min_le_left _ _

theorem C8_amended_witness :
    list_tasks c8Reg 50 = (sortTasksDesc (c8Reg.map Prod.snd)).take ((50 : Int)).toNat
    ∧ List.Pairwise (fun a b => b.started_at ≤ a.started_at) (list_tasks c8Reg 50)
    ∧ (list_tasks c8Reg 50).length ≤ ((50 : Int)).toNat
    ∧ List.Perm (sortTasksDesc (c8Reg.map Prod.snd)) (c8Reg.map Prod.snd)
    ∧ list_tasks_default c8Reg = list_tasks c8Reg 50 :=
  C8_amended c8Reg 50 (by decide)

/-- C3 counterexample: the claim's capture test — a "goal:" marker
matched case-insensitively, colon included — disagrees with the source
regex `[Gg]oal:?` in both directions: the line with `GOAL:` contains a
case-insensitive goal marker yet is discarded (only the first letter is
case-insensitive in the source), while the line with `Goal` and no colon
fails the claim's test yet is captured (the colon is optional in the
source). -/
theorem C3_counterexample :
    (claimCapture "🎯 GOAL: buy milk" = true
     ∧ emit emptyLogState "t1" "🎯 GOAL: buy milk" = emptyLogState)
    ∧ (claimCapture "🎯 Goal head north" = false
     ∧ (emit emptyLogState "t1" "🎯 Goal head north").task_logs =
         [("t1", ["head north"])]) :=
  ⟨⟨rfl, rfl⟩, ⟨rfl, rfl⟩⟩

/-- C3 (amended): the capture filter appends a cleaned entry iff the goal
pattern — the marker emoji, optional whitespace, an optional literal
`Next` plus whitespace, `goal` with only its first letter
case-insensitive, an optional colon, then the goal text — matches the
ANSI-stripped line; the cleaned entry is the whitespace-stripped capture
group; every non-matching line leaves buffer and queues unchanged (the
source's separate emoji-containment test is implied by a match). -/
theorem C3_amended (st : LogState) (task_id line : String) :
    (∀ g, goalSearch (stripAnsi line) = some g →
       emit st task_id line =
         { task_logs := appendLog st.task_logs task_id (pyStrip g),
           log_listeners := notifyListeners st.log_listeners task_id (pyStrip g) })
    ∧ (goalSearch (stripAnsi line) = none → emit st task_id line = st) := by
  constructor
  · intro g hg
    have hct : containsTarget line = true := containsTarget_of_goalSearch line g hg
    simp only [emit, hct, hg, if_true]
  · intro hg
    by_cases hct : containsTarget line = true
    · simp only [emit, hct, hg, if_true]
    · simp only [emit, hct, if_false]
      simp only [Bool.not_eq_true] at hct
      simp [hct]

theorem C3_amended_witness :
    emit emptyLogState "t1" "🎯 Next goal: open mail" =
      { task_logs := appendLog emptyLogState.task_logs "t1" (pyStrip "open mail"),
        log_listeners :=
          notifyListeners emptyLogState.log_listeners "t1" (pyStrip "open mail") } :=
  (C3_amended emptyLogState "t1" "🎯 Next goal: open mail").1 "open mail" (by decide)

/-- C2 counterexample: with two streaming sessions open on the same task
id, the second session creates no queue of its own — the listener map is
unchanged — and after the five synthetic goal lines are captured, one
listener draining the shared queue receives all five entries while the
other listener's next get finds the queue empty: the sessions partition
the entries instead of each receiving its own full copy. -/
theorem C2_counterexample :
    openListenerQueue (openListenerQueue [] "t1") "t1" = openListenerQueue [] "t1"
    ∧ (listenerDrain c2State "t1" 5).1 = ["g1", "g2", "g3", "g4", "g5"]
    ∧ (listenerGet (listenerDrain c2State "t1" 5).2 "t1").1 = none :=
  ⟨rfl, rfl, rfl⟩

/-- C2 (amended): all concurrent listeners on one task id share a single
bounded queue, created by the first session (a later open is a no-op);
each captured entry is pushed once onto that shared queue, and a
successful get removes the front entry from it, so concurrent listeners
partition the captured entries among themselves rather than each
receiving a full copy. -/
theorem C2_amended :
    (∀ (ls : List (String × ListenerQueue)) (task_id : String),
        (alistLookup ls task_id).isSome = true →
        openListenerQueue ls task_id = ls)
    ∧ (∀ (ls : List (String × ListenerQueue)) (task_id e : String)
          (q : ListenerQueue), alistLookup ls task_id = some q →
        alistLookup (notifyListeners ls task_id e) task_id = some (put_nowait q e))
    ∧ (∀ (st : LogState) (task_id e : String) (q : ListenerQueue)
          (rest : List String),
        alistLookup st.log_listeners task_id = some q → q.items = e :: rest →
        (listenerGet st task_id).1 = some e
        ∧ alistLookup ((listenerGet st task_id).2).log_listeners task_id =
            some { q with items := rest }) := by
  refine ⟨?_, ?_, ?_⟩
  · intro ls task_id h
    unfold openListenerQueue
    rw [if_pos h]
  · intro ls task_id e q hq
    unfold notifyListeners
    rw [if_pos (by rw [hq]; rfl)]
    rw [alistLookup_update_self, hq]
    rfl
  · intro st task_id e q rest hq hi
    rw [listenerGet_cons st task_id q e rest hq hi]
    refine ⟨rfl, ?_⟩
    simp only
    rw [alistLookup_update_self, hq]
    rfl

theorem C2_amended_witness :
    openListenerQueue [("t1", c2aQueue)] "t1" = [("t1", c2aQueue)]
    ∧ alistLookup (notifyListeners [("t1", c2aQueue)] "t1" "b") "t1" =
        some (put_nowait c2aQueue "b")
    ∧ ((listenerGet c2aState "t1").1 = some "a"
       ∧ alistLookup ((listenerGet c2aState "t1").2).log_listeners "t1" =
           some { c2aQueue with items := [] }) :=
  ⟨C2_amended.1 [("t1", c2aQueue)] "t1" rfl,
   C2_amended.2.1 [("t1", c2aQueue)] "t1" "b" c2aQueue rfl,
   C2_amended.2.2 c2aState "t1" "a" c2aQueue [] rfl rfl⟩

/-- C7: a streaming session first replays the last 10 buffered entries in
buffer order (the replay is a suffix of the buffer, at most 10 entries,
with a pacing sleep accompanying every replayed entry — two actions per
entry), then forwards live entries in captured order, substituting a
keepalive payload for every wait that times out instead of ending the
loop (one output per wait); and entries pushed within capacity onto a
fresh listener queue are drained by successive gets in exactly the
captured FIFO order. -/
theorem C7_stream_replay_live (logs : List String)
    (waitResults : List (Option String)) (entries : List String)
    (hcap : entries.length ≤ 100) :
    yieldPayloads (generate (some logs) waitResults) =
        (lastN 10 logs).map sseData
          ++ waitResults.map (fun r => sseData (r.getD "keepalive"))
    ∧ (∃ pre, logs = pre ++ lastN 10 logs)
    ∧ (lastN 10 logs).length ≤ 10
    ∧ (replayPhase logs).length = 2 * (lastN 10 logs).length
    ∧ (livePhase waitResults).length = waitResults.length
    ∧ (listenerDrain
         { task_logs := [],
           log_listeners := [("s", pushAll { items := [], maxsize := 100 } entries)] }
         "s" entries.length).1 = entries := by
  refine ⟨?_, ?_, ?_, ?_, ?_, ?_⟩
  · unfold generate replayPhase
    rw [yieldPayloads_append, yieldPayloads_replayOf, yieldPayloads_live]
  · exact ⟨logs.take (logs.length - 10), (List.take_append_drop _ _).symm⟩
  · simp only [lastN, List.length_drop]
    omega
  · unfold replayPhase
    exact flatten_pairs_length (lastN 10 logs)
  · simp [livePhase]
  · have hitems : (pushAll { items := [], maxsize := 100 } entries).items = entries :=
      pushAll_items entries { items := [], maxsize := 100 } (by simpa using hcap)
    exact listenerDrain_all entries _ "s" _ (by simp [alistLookup]) hitems

theorem C7_stream_replay_live_witness :
    yieldPayloads (generate (some ["b1", "b2"]) [some "g1", none, some "g2"]) =
        (lastN 10 ["b1", "b2"]).map sseData
          ++ [some "g1", none, some "g2"].map (fun r => sseData (r.getD "keepalive"))
    ∧ (∃ pre, ["b1", "b2"] = pre ++ lastN 10 ["b1", "b2"])
    ∧ (lastN 10 ["b1", "b2"]).length ≤ 10
    ∧ (replayPhase ["b1", "b2"]).length = 2 * (lastN 10 ["b1", "b2"]).length
    ∧ (livePhase [some "g1", none, some "g2"]).length =
        [some "g1", none, some "g2"].length
    ∧ (listenerDrain
         { task_logs := [],
           log_listeners :=
             [("s", pushAll { items := [], maxsize := 100 } ["g1", "g2"])] }
         "s" ["g1", "g2"].length).1 = ["g1", "g2"] :=
  C7_stream_replay_live ["b1", "b2"] [some "g1", none, some "g2"] ["g1", "g2"]
    (by decide)

end ApiServer
